import Mathlib

/-!
Shallow embedding of the one-word-story Discord bot (`src/main.rs`).

The pure logic of the program — message moderation (`is_valid_message`),
story aggregation (`generate_story` / `send_story`), command parsing
(`parse_command`) and configuration handling (`set_config` / `run_command`)
— is translated into executable Lean definitions.  Rust strings are
modelled through `String` / `List Char`, with `str::len` modelled as
character count (the program's texts of interest are ASCII, where byte
length and character count agree).  External collaborators (the Discord
gateway, the filesystem, the `censor` crate) are modelled at their
documented boundaries, as noted on each definition.
-/

namespace OneWordStory

/-- Model of Rust `str::split_whitespace` collecting into a `Vec`:
walk the characters, splitting at whitespace and dropping empty pieces.
`cur` holds the characters of the current token in reverse order. -/
def splitWSGo : List Char → List Char → List String
  | [], cur => if cur.isEmpty then [] else [String.mk cur.reverse]
  | c :: rest, cur =>
    if c.isWhitespace then
      if cur.isEmpty then splitWSGo rest []
      else String.mk cur.reverse :: splitWSGo rest []
    else splitWSGo rest (c :: cur)

/-- `msg.split_whitespace().collect::<Vec<&str>>()` from the source. -/
def split_whitespace (s : String) : List String :=
  splitWSGo s.data []

/-- Modelled from the spec: the banned-word filter is supplied by the external
`censor` crate, whose source is not part of this repository.  The program only
ever constructs the `Censor::Custom` variant (src/main.rs lines 268 and 323),
which the crate documents as a fully custom word set that does not include the
crate's standard profanity list.  Per the spec the filter uses
"substring/word-boundary matching semantics": `check` holds when some word of
the custom set occurs in the message text. -/
inductive Censor where
  | Custom (words : List String)
deriving DecidableEq

/-- Whether `pat` occurs as a contiguous run inside `l` (substring check on
character lists). -/
def occursIn (pat : List Char) : List Char → Bool
  | [] => pat.isEmpty
  | c :: rest => pat.isPrefixOf (c :: rest) || occursIn pat rest

/-- Modelled from the spec: `Censor::check(text)` for the `Custom` variant —
true when some word of the custom set occurs as a substring of the text. -/
def Censor.check : Censor → String → Bool
  | .Custom words, text => words.any fun w => occursIn w.data text.data

/-- `is_valid_message` from src/main.rs lines 81–97: more than two
whitespace tokens is invalid; exactly two tokens are invalid unless one of
them has length at most 2; otherwise the text is invalid exactly when the
censor matches it. -/
def is_valid_message (msg : String) (censor : Censor) : Bool :=
  let words := split_whitespace msg
  if 2 < words.length then false
  else if words.length = 2 ∧ ¬((words.getD 0 "").length ≤ 2 ∨ (words.getD 1 "").length ≤ 2) then false
  else if censor.check msg then false
  else true

/-- A fetched history message, the part of `serenity`'s `Message` that
`generate_story` reads: its text (`m.content`) and whether its author is a
bot (`m.author.bot`). -/
structure HistoryMessage where
  content : String
  author_bot : Bool
deriving DecidableEq

/-- An emitted embed: `e.title(title).description(story.join(" "))` from
`send_story`. -/
structure Block where
  title : String
  body : String
deriving DecidableEq

/-- Model of Rust `Vec::join(" ")` as used by `send_story`. -/
def join_space : List String → String
  | [] => ""
  | [s] => s
  | s :: rest => s ++ " " ++ join_space rest

/-- `send_story` from src/main.rs lines 136–156: an empty chunk emits
nothing; otherwise the chunk is reversed and joined with single spaces into
one embed with the given title.  (Posting and pinning are external gateway
calls; the emitted block is the message content requested.) -/
def send_story (story : List String) (title : String) : List Block :=
  if story.isEmpty then [] else [⟨title, join_space story.reverse⟩]

/-- The `for m in messages.iter()` loop of `generate_story`
(src/main.rs lines 107–132), as a recursion over the remaining messages
with the loop state (`char_count`, `title`, `story`) passed explicitly.
Returns the blocks emitted from this point on, including the final
`send_story` flush after the loop. -/
def generate_story_loop : List HistoryMessage → Nat → String → List String → List Block
  | [], _, title, story => send_story story title
  | m :: rest, char_count, title, story =>
    if m.content = "." then send_story story title
    else if m.author_bot then generate_story_loop rest char_count title story
    else
      let cc := char_count + m.content.length + 1
      if 4096 < cc then
        send_story story title ++ generate_story_loop rest m.content.length "continued" [m.content]
      else
        generate_story_loop rest cc title (story ++ [m.content])

/-- `generate_story` from src/main.rs lines 99–134, applied to the list of
fetched messages (most recent first): the loop starting from
`char_count = 0`, `title = "Story so far"` and an empty chunk. -/
def generate_story (messages : List HistoryMessage) : List Block :=
  generate_story_loop messages 0 "Story so far" []

/-- Modelled from the spec: the history fetch
`msg.channel_id.messages(|r| r.before(msg.id).limit(250))` is an external
gateway call; per the spec's History query contract it returns at most
`limit` entries, most recent first, strictly before the trigger message.
`history` stands for the full before-trigger stream, newest first, so the
fetch returns its first 250 entries. -/
def aggregate_run (history : List HistoryMessage) : List Block :=
  generate_story (history.take 250)

/-- The `Command` enum from src/main.rs lines 158–163.  `ChannelId` is a
wrapper around a `u64`; channel identifiers are modelled as `Nat` (the
parser only produces values below `2 ^ 64`). -/
inductive Command where
  | SetChannel (id : Nat)
  | BanWord (word : String)
  | UnbanWord (word : String)
deriving DecidableEq

deriving instance DecidableEq for Except

/-- Model of Rust `str::starts_with(pat)`. -/
def starts_with (s pat : String) : Bool :=
  pat.data.isPrefixOf s.data

/-- Model of Rust `str::to_lowercase()` (ASCII case mapping; the keywords
being compared are ASCII). -/
def to_lowercase (s : String) : String :=
  String.mk (s.data.map Char.toLower)

/-- Model of `arg.replace("<#", "")`: remove every non-overlapping
occurrence of the two-character pattern, scanning left to right. -/
def remove_pair (p1 p2 : Char) : List Char → List Char
  | [] => []
  | [c] => [c]
  | c1 :: c2 :: rest =>
    if c1 = p1 ∧ c2 = p2 then remove_pair p1 p2 rest
    else c1 :: remove_pair p1 p2 (c2 :: rest)

/-- Model of `.replace('>', "")`: remove every occurrence of the character. -/
def remove_char (p : Char) (l : List Char) : List Char :=
  l.filter fun c => c ≠ p

/-- Model of Rust `str::parse::<u64>()` on a digit string: rejects the empty
string and any non-digit character, and fails on values that overflow a
`u64`. -/
def parse_digits (l : List Char) : Option Nat :=
  if l.isEmpty then none
  else if l.all (fun c => c.isDigit) then
    let n := l.foldl (fun acc c => acc * 10 + (c.toNat - 48)) 0
    if n < 2 ^ 64 then some n else none
  else none

/-- Model of Rust `str::parse::<u64>()`: an optional single leading `+`
followed by a nonempty run of ASCII digits denoting a value below `2 ^ 64`. -/
def parse_u64 (s : String) : Option Nat :=
  match s.data with
  | '+' :: rest => parse_digits rest
  | l => parse_digits l

/-- `arg.replace("<#", "").replace('>', "")` from src/main.rs lines 179–181:
strip the channel-mention decoration characters. -/
def strip_mention (s : String) : String :=
  String.mk (remove_char '>' (remove_pair '<' '#' s.data))

/-- The usage string replied when a `one-word` command has fewer than three
tokens (src/main.rs line 172). -/
def usageMsg : String := "Usage: one-word <set-channel|ban|unban> <arg>"

/-- Indexing into the token vector (`words[i]` in the source; the source
only indexes within bounds, so the default is never reached there). -/
def word_at (words : List String) (i : Nat) : String := words.getD i ""

/-- `parse_command` from src/main.rs lines 165–193, as a function of the
message text.  Rust's `match words[1].to_lowercase().as_str()` over the
three string literals is rendered as the equivalent chain of equality
tests. -/
def parse_command (content : String) : Option (Except String Command) :=
  if !(starts_with content "one-word") then none
  else
    let words := split_whitespace content
    if words.length < 3 then some (.error usageMsg)
    else
      let arg := word_at words 2
      let kw := to_lowercase (word_at words 1)
      if kw = "set-channel" then
        match parse_u64 (strip_mention arg) with
        | some id => some (.ok (.SetChannel id))
        | none => some (.error "Invalid channel")
      else if kw = "ban" then some (.ok (.BanWord arg))
      else if kw = "unban" then some (.ok (.UnbanWord arg))
      else some (.error "Invalid command")

/-- The `Config` struct from src/main.rs lines 242–246.  The
`HashSet<String>` of banned words is modelled as a duplicate-free list:
`insert` is a no-op on elements already present and `erase` removes the
element, matching `HashSet::insert` / `HashSet::remove`. -/
structure Config where
  channel_id : Nat
  banned_words : List String
deriving DecidableEq

/-- The in-memory state the handlers share through `ctx.data`: the current
`Config` (in `ConfigContainer`) and the published `Censor`
(in `CensorContainer`). -/
structure AppState where
  config : Config
  censor : Censor
deriving DecidableEq

/-- The persistence environment `set_config` interacts with: whether the
`CONFIG_FILE` environment variable is set, and whether the external
`fs::write` call fails.  Both are outside the core's control. -/
structure PersistEnv where
  config_file : Option String
  write_fails : Bool

/-- `set_config` from src/main.rs lines 253–283: apply the update to the
configuration, publish a censor freshly rebuilt as `Censor::Custom` of the
new banned-word set, then make a best-effort attempt to persist the new
configuration — failures are only logged (second component; the `{:?}`
payloads of the `println!` calls are elided). -/
def set_config (update : Config → Config) (st : AppState) (env : PersistEnv) :
    AppState × List String :=
  let config := update st.config
  let censor := Censor.Custom config.banned_words
  let logs :=
    match env.config_file with
    | some _ => if env.write_fails then ["Error wriring config"] else []
    | none => ["Mising CONFIG_FILE env. Configuration not saved."]
  ({ config := config, censor := censor }, logs)

/-- The update closure passed to `set_config` for each command arm of
`run_command` (src/main.rs lines 206–225). -/
def command_update : Command → Config → Config
  | .SetChannel id, config => { config with channel_id := id }
  | .BanWord word, config => { config with banned_words := config.banned_words.insert word }
  | .UnbanWord word, config => { config with banned_words := config.banned_words.erase word }

/-- `run_command` from src/main.rs lines 195–230.  `is_admin` is the result
of the external permission check `msg_member_has_perm(.., ADMINISTRATOR)`.
Returns the new state and the reply text sent to the user. -/
def run_command (cmd : Command) (is_admin : Bool) (st : AppState) (env : PersistEnv) :
    AppState × String :=
  if !is_admin then (st, "Only admins are allowed to update settings.")
  else
    let st' := (set_config (command_update cmd) st env).1
    (st', "Settings updated")

/-- Startup initialization from `main` (src/main.rs lines 315–325):
`read_config()` is an external load returning `loaded`; on `None` the
default configuration (channel 0, no banned words) is used, and the censor
is published as `Censor::Custom` of the banned-word set. -/
def init_state (loaded : Option Config) : AppState :=
  let c := loaded.getD { channel_id := 0, banned_words := [] }
  { config := c, censor := Censor.Custom c.banned_words }

/-- The states reachable through startup initialization followed by any
sequence of handled commands (with any admin status and persistence
outcome). -/
inductive Reachable : AppState → Prop
  | init (loaded : Option Config) : Reachable (init_state loaded)
  | step (st : AppState) (cmd : Command) (is_admin : Bool) (env : PersistEnv) :
      Reachable st → Reachable (run_command cmd is_admin st env).1

/-! ## Lemmas and theorems -/

/-- Closed form of `is_valid_message`: the two length rules first, then the
censor decides. -/
lemma is_valid_message_eq (msg : String) (c : Censor) :
    is_valid_message msg c =
      if 2 < (split_whitespace msg).length then false
      else if (split_whitespace msg).length = 2 ∧
          ¬(((split_whitespace msg).getD 0 "").length ≤ 2 ∨
            ((split_whitespace msg).getD 1 "").length ≤ 2) then false
      else !(c.check msg) := by
  simp only [is_valid_message]
  split_ifs with h1 h2 h3
  · rfl
  · rfl
  · simp [h3]
  · simp [Bool.not_eq_true] at h3
    simp [h3]

/-- C1.  The moderator's length rules: more than 2 whitespace tokens is
always rejected; exactly 2 tokens are rejected when both are longer than
2 characters and otherwise fall through to the banned-word check; 0 or 1
tokens always fall through to the banned-word check.  `"a b"` passes the
length rules, while `"alpha beta"` and `"alpha beta gamma"` are rejected
whatever the censor is. -/
theorem is_valid_message_length_rules (msg : String) (c : Censor) :
    (2 < (split_whitespace msg).length → is_valid_message msg c = false)
    ∧ ((split_whitespace msg).length = 2 →
        (2 < ((split_whitespace msg).getD 0 "").length ∧
         2 < ((split_whitespace msg).getD 1 "").length →
          is_valid_message msg c = false)
        ∧ (((split_whitespace msg).getD 0 "").length ≤ 2 ∨
           ((split_whitespace msg).getD 1 "").length ≤ 2 →
          is_valid_message msg c = !(c.check msg)))
    ∧ ((split_whitespace msg).length ≤ 1 → is_valid_message msg c = !(c.check msg))
    ∧ is_valid_message "a b" (Censor.Custom []) = true
    ∧ (∀ c' : Censor, is_valid_message "alpha beta" c' = false ∧
        is_valid_message "alpha beta gamma" c' = false) := by
  refine ⟨?_, ?_, ?_, by decide, ?_⟩
  · intro h
    rw [is_valid_message_eq, if_pos h]
  · intro h2
    refine ⟨?_, ?_⟩
    · intro hboth
      rw [is_valid_message_eq, if_neg (by omega), if_pos ⟨h2, by omega⟩]
    · intro hone
      rw [is_valid_message_eq, if_neg (by omega), if_neg (fun hc => hc.2 hone)]
  · intro h1
    rw [is_valid_message_eq, if_neg (by omega), if_neg (fun hc => by omega)]
  · intro c'
    constructor
    · rw [is_valid_message_eq,
        if_neg (by rw [show split_whitespace "alpha beta" = ["alpha", "beta"] from by decide]; decide),
        if_pos (by rw [show split_whitespace "alpha beta" = ["alpha", "beta"] from by decide]; decide)]
    · rw [is_valid_message_eq,
        if_pos (by rw [show split_whitespace "alpha beta gamma" = ["alpha", "beta", "gamma"] from by decide]; decide)]

/-- Witness for `is_valid_message_length_rules` at a concrete input. -/
theorem is_valid_message_length_rules_witness :
    is_valid_message "alpha beta gamma" (Censor.Custom []) = false :=
  (is_valid_message_length_rules "alpha beta gamma" (Censor.Custom [])).1
    (by rw [show split_whitespace "alpha beta gamma" = ["alpha", "beta", "gamma"] from by decide]; decide)

/-- C2 (amended).  A message that passes the length rules is rejected
exactly when the censor — `Censor::Custom` of the custom banned-word list
alone — matches its full text; banning `"foo"` rejects `"foo"` and allows
`"bar"`; the empty custom list matches nothing. -/
theorem is_valid_message_banned_filter (msg : String) (c : Censor)
    (hlen : (split_whitespace msg).length ≤ 2)
    (hexc : (split_whitespace msg).length = 2 →
      ((split_whitespace msg).getD 0 "").length ≤ 2 ∨
      ((split_whitespace msg).getD 1 "").length ≤ 2) :
    (is_valid_message msg c = false ↔ c.check msg = true)
    ∧ is_valid_message "foo" (Censor.Custom ["foo"]) = false
    ∧ is_valid_message "bar" (Censor.Custom ["foo"]) = true
    ∧ (∀ t : String, Censor.check (Censor.Custom []) t = false) := by
  refine ⟨?_, by decide, by decide, fun t => rfl⟩
  rw [is_valid_message_eq, if_neg (by omega), if_neg (fun hc => by
    rcases hexc hc.1 with h | h
    · exact hc.2 (Or.inl h)
    · exact hc.2 (Or.inr h))]
  cases hc : c.check msg <;> simp

/-- Witness for `is_valid_message_banned_filter` at a concrete input. -/
theorem is_valid_message_banned_filter_witness :
    is_valid_message "bar" (Censor.Custom ["foo"]) = true :=
  (is_valid_message_banned_filter "bar" (Censor.Custom ["foo"])
    (by decide) (by decide)).2.2.1

/-- Counterexample for C2 as stated: the claim has the filter comprise the
standard profanity list as well, but the program builds `Censor::Custom`
of the custom banned words only — the `censor` crate documents `Custom` as
not including its standard list.  `"shit"` is on that standard list, yet
with an empty custom banned-word list the message is allowed (would not be
deleted). -/
theorem standard_profanity_allowed_counterexample :
    is_valid_message "shit" (Censor.Custom []) = true := by decide

/-- `parse_command` when the prefix is absent. -/
lemma parse_command_none (t : String) (hsw : starts_with t "one-word" = false) :
    parse_command t = none := by
  simp [parse_command, hsw]

/-- `parse_command` when the prefix matches but there are fewer than three
tokens. -/
lemma parse_command_short (t : String) (hsw : starts_with t "one-word" = true)
    (hlt : (split_whitespace t).length < 3) :
    parse_command t = some (.error usageMsg) := by
  simp [parse_command, hsw, hlt]

/-- Closed form of `parse_command` when the prefix matches and there are at
least three tokens: the keyword dispatch. -/
lemma parse_command_eq_dispatch (t : String) (hsw : starts_with t "one-word" = true)
    (hge : ¬((split_whitespace t).length < 3)) :
    parse_command t =
      (if to_lowercase (word_at (split_whitespace t) 1) = "set-channel" then
        match parse_u64 (strip_mention (word_at (split_whitespace t) 2)) with
        | some id => some (.ok (.SetChannel id))
        | none => some (.error "Invalid channel")
      else if to_lowercase (word_at (split_whitespace t) 1) = "ban" then
        some (.ok (.BanWord (word_at (split_whitespace t) 2)))
      else if to_lowercase (word_at (split_whitespace t) 1) = "unban" then
        some (.ok (.UnbanWord (word_at (split_whitespace t) 2)))
      else some (.error "Invalid command")) := by
  simp only [parse_command, hsw, Bool.not_true, Bool.false_eq_true, if_false, if_neg hge]

/-- With the prefix present, `parse_command` always yields `some`. -/
lemma parse_command_ne_none (t : String) (hsw : starts_with t "one-word" = true) :
    parse_command t ≠ none := by
  by_cases hlt : (split_whitespace t).length < 3
  · rw [parse_command_short t hsw hlt]
    simp
  · rw [parse_command_eq_dispatch t hsw hlt]
    split_ifs
    · split <;> simp
    · simp
    · simp
    · simp

/-- C3.  Behaviour of `parse_command` over any message text: `none`
exactly when the `one-word` prefix is absent; the usage error when the
prefix matches with fewer than 3 tokens; with at least 3 tokens the
case-insensitive keyword dispatches to `set-channel` (whose argument,
after stripping the channel-mention decoration, must parse as a `u64`),
`ban` or `unban` (argument taken verbatim), and anything else is an
invalid command; plus the five concrete examples from the spec. -/
theorem parse_command_spec (t : String) :
    (parse_command t = none ↔ starts_with t "one-word" = false)
    ∧ (starts_with t "one-word" = true → (split_whitespace t).length < 3 →
        parse_command t = some (.error usageMsg))
    ∧ (starts_with t "one-word" = true → 3 ≤ (split_whitespace t).length →
        (to_lowercase (word_at (split_whitespace t) 1) = "set-channel" →
          (∀ n : Nat, parse_command t = some (.ok (.SetChannel n)) ↔
            parse_u64 (strip_mention (word_at (split_whitespace t) 2)) = some n)
          ∧ (parse_u64 (strip_mention (word_at (split_whitespace t) 2)) = none →
              parse_command t = some (.error "Invalid channel")))
        ∧ (to_lowercase (word_at (split_whitespace t) 1) = "ban" →
            parse_command t = some (.ok (.BanWord (word_at (split_whitespace t) 2))))
        ∧ (to_lowercase (word_at (split_whitespace t) 1) = "unban" →
            parse_command t = some (.ok (.UnbanWord (word_at (split_whitespace t) 2))))
        ∧ (to_lowercase (word_at (split_whitespace t) 1) ≠ "set-channel" →
            to_lowercase (word_at (split_whitespace t) 1) ≠ "ban" →
            to_lowercase (word_at (split_whitespace t) 1) ≠ "unban" →
            parse_command t = some (.error "Invalid command")))
    ∧ parse_command "one-word ban silly" = some (.ok (.BanWord "silly"))
    ∧ parse_command "one-word set-channel <#123>" = some (.ok (.SetChannel 123))
    ∧ parse_command "one-word set-channel abc" = some (.error "Invalid channel")
    ∧ parse_command "one-word" = some (.error usageMsg)
    ∧ parse_command "hello" = none := by
  refine ⟨?_, parse_command_short t, ?_, by decide, by decide, by decide, by decide, by decide⟩
  · cases hsw : starts_with t "one-word"
    · simp [parse_command_none t hsw]
    · constructor
      · intro h
        exact absurd h (parse_command_ne_none t hsw)
      · intro h
        exact Bool.noConfusion h
  · intro hsw hge
    have hlt : ¬((split_whitespace t).length < 3) := by omega
    refine ⟨fun hkw => ⟨fun n => ?_, fun hp => ?_⟩, fun hkw => ?_, fun hkw => ?_,
      fun h1 h2 h3 => ?_⟩
    · rw [parse_command_eq_dispatch t hsw hlt, if_pos hkw]
      cases hp : parse_u64 (strip_mention (word_at (split_whitespace t) 2)) <;> simp [hp]
    · rw [parse_command_eq_dispatch t hsw hlt, if_pos hkw, hp]
    · rw [parse_command_eq_dispatch t hsw hlt, if_neg (by rw [hkw]; decide), if_pos hkw]
    · rw [parse_command_eq_dispatch t hsw hlt, if_neg (by rw [hkw]; decide),
        if_neg (by rw [hkw]; decide), if_pos hkw]
    · rw [parse_command_eq_dispatch t hsw hlt, if_neg h1, if_neg h2, if_neg h3]

/-- Witness for `parse_command_spec` at a concrete input. -/
theorem parse_command_spec_witness :
    parse_command "one-word unban w" = some (.ok (.UnbanWord "w")) :=
  ((parse_command_spec "one-word unban w").2.2.1 (by decide) (by decide)).2.2.1
    (by decide)

/-- C7.  In every state reachable through startup initialization and any
sequence of handled commands, the published censor is exactly
`Censor::Custom` of the banned-word set of the current configuration. -/
theorem censor_matches_config (st : AppState) (h : Reachable st) :
    st.censor = Censor.Custom st.config.banned_words := by
  induction h with
  | init loaded => rfl
  | step st cmd is_admin env hr ih =>
    cases is_admin
    · simpa [run_command] using ih
    · rfl

/-- Witness for `censor_matches_config` at a concrete reachable state. -/
theorem censor_matches_config_witness :
    (init_state none).censor = Censor.Custom (init_state none).config.banned_words :=
  censor_matches_config (init_state none) (Reachable.init none)

/-- C8.  A mutation's in-memory result — the updated configuration and the
rebuilt censor — is the same whatever the persistence environment does:
save failures are logged only, never propagated, and the user reply of a
successful admin command is `"Settings updated"` regardless. -/
theorem set_config_persistence_independent (update : Config → Config) (st : AppState)
    (env env' : PersistEnv) (cmd : Command) :
    (set_config update st env).1 = (set_config update st env').1
    ∧ (set_config update st env).1.config = update st.config
    ∧ (set_config update st env).1.censor = Censor.Custom (update st.config).banned_words
    ∧ (run_command cmd true st env).2 = "Settings updated" :=
  ⟨rfl, rfl, rfl, rfl⟩

/-- C9.  A privileged command issued without the administrator capability
only produces the rejection reply: the state — configuration and censor
alike — is returned unchanged. -/
theorem run_command_non_admin_no_change (cmd : Command) (st : AppState) (env : PersistEnv) :
    run_command cmd false st env = (st, "Only admins are allowed to update settings.") :=
  rfl

/-! ## Story aggregation lemmas -/

/-- The texts of the non-bot messages of a history slice, in walk order
(most recent first). -/
def non_bot_contents (ms : List HistoryMessage) : List String :=
  (ms.filter fun m => !m.author_bot).map fun m => m.content

/-- The total budget the loop charges for a slice with no terminator: each
non-bot message costs its length plus one separator. -/
def add_weight (ms : List HistoryMessage) : Nat :=
  ((ms.filter fun m => !m.author_bot).map fun m => m.content.length + 1).sum

/-- The texts that survive the walk over a history slice: everything before
the first terminator, bots dropped, in walk order. -/
def walked_contents (ms : List HistoryMessage) : List String :=
  non_bot_contents (ms.takeWhile fun m => m.content ≠ ".")

/-- The serialized size of a chunk: the lengths of its fragments plus one
separator between consecutive fragments. -/
def chunk_len (l : List String) : Nat := (l.map String.length).sum + l.length - 1

lemma join_space_length (l : List String) : (join_space l).length = chunk_len l := by
  induction l with
  | nil => rfl
  | cons s rest ih =>
    cases rest with
    | nil => simp [join_space, chunk_len]
    | cons s2 rest2 =>
      rw [show join_space (s :: s2 :: rest2) = s ++ " " ++ join_space (s2 :: rest2) from rfl]
      rw [String.length_append, String.length_append, ih]
      simp only [chunk_len, List.map_cons, List.sum_cons, List.length_cons]
      have : (" " : String).length = 1 := rfl
      omega

lemma chunk_len_reverse (l : List String) : chunk_len l.reverse = chunk_len l := by
  simp [chunk_len, List.sum_reverse]

lemma chunk_len_push (l : List String) (s : String) :
    chunk_len (l ++ [s]) ≤ chunk_len l + s.length + 1 := by
  simp only [chunk_len, List.map_append, List.sum_append, List.length_append,
    List.map_cons, List.map_nil, List.sum_cons, List.sum_nil, List.length_cons,
    List.length_nil]
  omega

lemma chunk_len_singleton (s : String) : chunk_len [s] = s.length := by
  simp [chunk_len]

/-- Membership in a `send_story` flush: the chunk was nonempty and the
block is its reversed space-join under the given title. -/
lemma send_story_mem {b : Block} {story : List String} {title : String}
    (hb : b ∈ send_story story title) :
    story ≠ [] ∧ b = ⟨title, join_space story.reverse⟩ := by
  unfold send_story at hb
  split_ifs at hb with he
  · exact absurd hb (List.not_mem_nil b)
  · refine ⟨fun hn => he (by simp [hn]), ?_⟩
    simpa using hb

lemma send_story_length_le (story : List String) (title : String) :
    (send_story story title).length ≤ 1 := by
  unfold send_story
  split_ifs <;> simp

/-- Every block a loop run emits has a body of at most 4096 characters,
provided no single message is longer than 4096 and the entering chunk's
size is covered by the entering budget. -/
lemma generate_story_loop_body_bound :
    ∀ (ms : List HistoryMessage) (cc : Nat) (title : String) (story : List String),
      (∀ m ∈ ms, m.content.length ≤ 4096) →
      chunk_len story ≤ cc → cc ≤ 4096 →
      ∀ b ∈ generate_story_loop ms cc title story, b.body.length ≤ 4096 := by
  intro ms
  induction ms with
  | nil =>
    intro cc title story hms hcs hcc b hb
    obtain ⟨hne, rfl⟩ := send_story_mem hb
    simp only [join_space_length, chunk_len_reverse]
    omega
  | cons m rest ih =>
    intro cc title story hms hcs hcc b hb
    have hmlen : m.content.length ≤ 4096 := hms m (by simp)
    have hrest : ∀ m' ∈ rest, m'.content.length ≤ 4096 :=
      fun m' hm' => hms m' (by simp [hm'])
    simp only [generate_story_loop] at hb
    split_ifs at hb with hdot hbot hov
    · obtain ⟨hne, rfl⟩ := send_story_mem hb
      simp only [join_space_length, chunk_len_reverse]
      omega
    · exact ih cc title story hrest hcs hcc b hb
    · rcases List.mem_append.mp hb with hb' | hb'
      · obtain ⟨hne, rfl⟩ := send_story_mem hb'
        simp only [join_space_length, chunk_len_reverse]
        omega
      · refine ih m.content.length "continued" [m.content] hrest ?_ hmlen b hb'
        rw [chunk_len_singleton]
    · refine ih (cc + m.content.length + 1) title (story ++ [m.content]) hrest ?_ (by omega) b hb
      calc chunk_len (story ++ [m.content]) ≤ chunk_len story + m.content.length + 1 :=
            chunk_len_push story m.content
        _ ≤ cc + m.content.length + 1 := by omega

/-- A run with no terminator and a total budget within 4096 performs a
single final flush of all the non-bot texts. -/
lemma generate_story_loop_no_overflow :
    ∀ (ms : List HistoryMessage) (cc : Nat) (title : String) (story : List String),
      (∀ m ∈ ms, m.content ≠ ".") →
      cc + add_weight ms ≤ 4096 →
      generate_story_loop ms cc title story =
        send_story (story ++ non_bot_contents ms) title := by
  intro ms
  induction ms with
  | nil =>
    intro cc title story hdot hw
    simp [generate_story_loop, non_bot_contents]
  | cons m rest ih =>
    intro cc title story hdot hw
    have hmdot : m.content ≠ "." := hdot m (by simp)
    have hrdot : ∀ m' ∈ rest, m'.content ≠ "." := fun m' hm' => hdot m' (by simp [hm'])
    simp only [generate_story_loop, if_neg hmdot]
    cases hbot : m.author_bot
    · have hwc : add_weight (m :: rest) = m.content.length + 1 + add_weight rest := by
        simp [add_weight, List.filter_cons, hbot]
      rw [if_neg (by simp)]
      rw [if_neg (by omega)]
      rw [ih (cc + m.content.length + 1) title (story ++ [m.content]) hrdot (by omega)]
      have hnbc : non_bot_contents (m :: rest) = m.content :: non_bot_contents rest := by
        simp [non_bot_contents, List.filter_cons, hbot]
      rw [hnbc, List.append_assoc, List.singleton_append]
    · have hwc : add_weight (m :: rest) = add_weight rest := by
        simp [add_weight, List.filter_cons, hbot]
      rw [if_pos rfl]
      rw [ih cc title story hrdot (by omega)]
      have hnbc : non_bot_contents (m :: rest) = non_bot_contents rest := by
        simp [non_bot_contents, List.filter_cons, hbot]
      rw [hnbc]

/-- Once the running title is `"continued"`, every block the rest of the
run emits is titled `"continued"`. -/
lemma generate_story_loop_continued :
    ∀ (ms : List HistoryMessage) (cc : Nat) (story : List String),
      ∀ b ∈ generate_story_loop ms cc "continued" story, b.title = "continued" := by
  intro ms
  induction ms with
  | nil =>
    intro cc story b hb
    obtain ⟨-, rfl⟩ := send_story_mem hb
    rfl
  | cons m rest ih =>
    intro cc story b hb
    simp only [generate_story_loop] at hb
    split_ifs at hb with hdot hbot hov
    · obtain ⟨-, rfl⟩ := send_story_mem hb
      rfl
    · exact ih cc story b hb
    · rcases List.mem_append.mp hb with hb' | hb'
      · obtain ⟨-, rfl⟩ := send_story_mem hb'
        rfl
      · exact ih m.content.length [m.content] b hb'
    · exact ih (cc + m.content.length + 1) (story ++ [m.content]) b hb

/-- Every block after the first one a loop run emits is titled
`"continued"`. -/
lemma generate_story_loop_later_continued :
    ∀ (ms : List HistoryMessage) (cc : Nat) (title : String) (story : List String)
      (i : Nat) (b : Block), 1 ≤ i →
      (generate_story_loop ms cc title story)[i]? = some b → b.title = "continued" := by
  intro ms
  induction ms with
  | nil =>
    intro cc title story i b hi hb
    rw [show generate_story_loop [] cc title story = send_story story title from rfl,
      List.getElem?_eq_none (by
        have := send_story_length_le story title
        omega)] at hb
    exact Option.noConfusion hb
  | cons m rest ih =>
    intro cc title story i b hi hb
    simp only [generate_story_loop] at hb
    split_ifs at hb with hdot hbot hov
    · rw [List.getElem?_eq_none (by
        have := send_story_length_le story title
        omega)] at hb
      exact Option.noConfusion hb
    · exact ih cc title story i b hi hb
    · rw [List.getElem?_append_right (by
        have := send_story_length_le story title
        omega)] at hb
      exact generate_story_loop_continued rest m.content.length [m.content] b
        (List.getElem?_mem hb)
    · exact ih (cc + m.content.length + 1) title (story ++ [m.content]) i b hi hb

/-- Every emitted block's body is the reversed space-join of a nonempty
chunk drawn, in walk order, from the entering chunk followed by the texts
that survive the walk. -/
lemma generate_story_loop_chunks :
    ∀ (ms : List HistoryMessage) (cc : Nat) (title : String) (story : List String),
      ∀ b ∈ generate_story_loop ms cc title story,
        ∃ chunk, chunk ≠ [] ∧ chunk.Sublist (story ++ walked_contents ms)
          ∧ b.body = join_space chunk.reverse := by
  intro ms
  induction ms with
  | nil =>
    intro cc title story b hb
    obtain ⟨hne, rfl⟩ := send_story_mem hb
    exact ⟨story, hne, by simp [walked_contents, non_bot_contents], rfl⟩
  | cons m rest ih =>
    intro cc title story b hb
    simp only [generate_story_loop] at hb
    split_ifs at hb with hdot hbot hov
    · obtain ⟨hne, rfl⟩ := send_story_mem hb
      exact ⟨story, hne, List.sublist_append_left story _, rfl⟩
    · have hwc : walked_contents (m :: rest) = walked_contents rest := by
        simp [walked_contents, non_bot_contents, List.takeWhile_cons, hdot,
          List.filter_cons, hbot]
      obtain ⟨chunk, hne, hsub, hbody⟩ := ih cc title story b hb
      exact ⟨chunk, hne, hwc ▸ hsub, hbody⟩
    · have hbot' : m.author_bot = false := by
        cases h : m.author_bot
        · rfl
        · exact absurd h hbot
      have hwc : walked_contents (m :: rest) = m.content :: walked_contents rest := by
        simp [walked_contents, non_bot_contents, List.takeWhile_cons, hdot,
          List.filter_cons, hbot']
      rcases List.mem_append.mp hb with hb' | hb'
      · obtain ⟨hne, rfl⟩ := send_story_mem hb'
        exact ⟨story, hne, List.sublist_append_left story _, rfl⟩
      · obtain ⟨chunk, hne, hsub, hbody⟩ := ih m.content.length "continued" [m.content] b hb'
        refine ⟨chunk, hne, ?_, hbody⟩
        rw [hwc]
        exact hsub.trans (List.sublist_append_right story _)
    · have hbot' : m.author_bot = false := by
        cases h : m.author_bot
        · rfl
        · exact absurd h hbot
      have hwc : walked_contents (m :: rest) = m.content :: walked_contents rest := by
        simp [walked_contents, non_bot_contents, List.takeWhile_cons, hdot,
          List.filter_cons, hbot']
      obtain ⟨chunk, hne, hsub, hbody⟩ := ih (cc + m.content.length + 1) title
        (story ++ [m.content]) b hb
      refine ⟨chunk, hne, ?_, hbody⟩
      rw [hwc]
      simpa [List.append_assoc] using hsub

/-- The loop never looks past the first terminator. -/
lemma generate_story_loop_takeWhile :
    ∀ (ms : List HistoryMessage) (cc : Nat) (title : String) (story : List String),
      generate_story_loop ms cc title story =
        generate_story_loop (ms.takeWhile fun m => m.content ≠ ".") cc title story := by
  intro ms
  induction ms with
  | nil => intro cc title story; rfl
  | cons m rest ih =>
    intro cc title story
    by_cases hdot : m.content = "."
    · have ht : (m :: rest).takeWhile (fun m => m.content ≠ ".") = [] := by
        simp [List.takeWhile_cons, hdot]
      rw [ht]
      simp only [generate_story_loop, if_pos hdot]
    · have ht : (m :: rest).takeWhile (fun m => m.content ≠ ".") =
          m :: rest.takeWhile (fun m => m.content ≠ ".") := by
        simp [List.takeWhile_cons, hdot]
      rw [ht]
      simp only [generate_story_loop, if_neg hdot]
      simp only [ih]

/-- A terminator anywhere in the stream cuts the walk exactly there,
whoever its author is. -/
lemma generate_story_loop_terminator :
    ∀ (pre post : List HistoryMessage) (bot : Bool) (cc : Nat) (title : String)
      (story : List String),
      generate_story_loop (pre ++ ⟨".", bot⟩ :: post) cc title story =
        generate_story_loop pre cc title story := by
  intro pre post bot
  induction pre with
  | nil =>
    intro cc title story
    rw [List.nil_append]
    show generate_story_loop (⟨".", bot⟩ :: post) cc title story = send_story story title
    simp only [generate_story_loop]
    exact if_pos trivial
  | cons m rest ih =>
    intro cc title story
    simp only [List.cons_append, generate_story_loop, List.append_eq]
    simp only [ih]

/-- If position `k` of a list fails the predicate, `takeWhile` sees at most
the first `k` elements. -/
lemma takeWhile_eq_takeWhile_take {α : Type} (p : α → Bool) :
    ∀ (l : List α) (k : Nat) (a : α), l[k]? = some a → p a = false →
      l.takeWhile p = (l.take k).takeWhile p := by
  intro l
  induction l with
  | nil =>
    intro k a hk
    simp at hk
  | cons x rest ih =>
    intro k a hk hp
    cases k with
    | zero =>
      simp only [List.getElem?_cons_zero, Option.some.injEq] at hk
      subst hk
      rw [List.takeWhile_cons_of_neg (by simp [hp]), List.take_zero]
      rfl
    | succ k =>
      simp only [List.getElem?_cons_succ] at hk
      by_cases hx : p x = true
      · rw [List.take_succ_cons, List.takeWhile_cons_of_pos hx,
          List.takeWhile_cons_of_pos hx, ih k a hk hp]
      · rw [List.take_succ_cons, List.takeWhile_cons_of_neg hx,
          List.takeWhile_cons_of_neg hx]

/-- C5 (amended).  When no single message is longer than 4096 characters,
every emitted block's body is at most 4096 characters long. -/
theorem generate_story_block_size_bound (ms : List HistoryMessage)
    (h : ∀ m ∈ ms, m.content.length ≤ 4096) :
    ∀ b ∈ generate_story ms, b.body.length ≤ 4096 :=
  generate_story_loop_body_bound ms 0 "Story so far" [] h (by decide) (by omega)

/-- Witness for `generate_story_block_size_bound` at a concrete input. -/
theorem generate_story_block_size_bound_witness :
    Block.mk "Story so far" "hi" ∈ generate_story [⟨"hi", false⟩]
    ∧ (Block.mk "Story so far" "hi").body.length ≤ 4096 :=
  ⟨by decide, generate_story_block_size_bound [⟨"hi", false⟩] (by decide)
    (Block.mk "Story so far" "hi") (by decide)⟩

/-- A message text longer than the 4096-character budget. -/
def oversized : String := String.mk (List.replicate 4097 'a')

lemma oversized_length : oversized.length = 4097 := by
  show (String.mk (List.replicate 4097 'a')).length = 4097
  rw [String.length_mk, List.length_replicate]

lemma oversized_ne_dot : oversized ≠ "." := by
  intro h
  have hl := congrArg String.length h
  rw [oversized_length] at hl
  exact absurd hl (by decide)

lemma generate_story_single_overflow (s : String) (hs : s ≠ ".") (hlen : 4096 < s.length) :
    generate_story [⟨s, false⟩] = [⟨"continued", s⟩] := by
  show generate_story_loop [⟨s, false⟩] 0 "Story so far" [] = _
  simp only [generate_story_loop]
  rw [if_neg hs, if_neg (by decide), if_pos (by omega)]
  simp [generate_story_loop, send_story, join_space]

lemma generate_story_oversized :
    generate_story [⟨oversized, false⟩] = [⟨"continued", oversized⟩] :=
  generate_story_single_overflow oversized oversized_ne_dot
    (by rw [oversized_length]; omega)

/-- Counterexample for C5 as stated: over an unrestricted history the
bound fails.  A single 4097-character message overflows the budget before
anything was accumulated, so the chunk is reset to that whole message and
the final flush emits a block whose body has 4097 characters. -/
theorem generate_story_oversized_counterexample :
    Block.mk "continued" oversized ∈ generate_story [⟨oversized, false⟩]
    ∧ 4096 < (Block.mk "continued" oversized).body.length := by
  refine ⟨?_, ?_⟩
  · rw [generate_story_oversized]
    exact List.mem_singleton.mpr rfl
  · show 4096 < oversized.length
    rw [oversized_length]
    omega

/-- C4 (amended).  A consumed history slice with no terminator, at least
one non-bot message, and a total weight (lengths plus one separator per
non-bot message) within 4096 produces exactly one block, titled
`"Story so far"`, whose body is the non-bot texts in forward chronological
order joined by single spaces; in general every block after the first is
titled `"continued"`, and every block's body is the space-join, in forward
chronological order, of a nonempty selection of the surviving non-bot
texts. -/
theorem generate_story_blocks_spec (ms : List HistoryMessage)
    (hdot : ∀ m ∈ ms, m.content ≠ ".")
    (hw : add_weight ms ≤ 4096)
    (hnb : ∃ m ∈ ms, m.author_bot = false) :
    generate_story ms = [⟨"Story so far", join_space (non_bot_contents ms).reverse⟩]
    ∧ (∀ (ms' : List HistoryMessage) (i : Nat) (b : Block), 1 ≤ i →
        (generate_story ms')[i]? = some b → b.title = "continued")
    ∧ (∀ (ms' : List HistoryMessage), ∀ b ∈ generate_story ms',
        ∃ chunk, chunk ≠ [] ∧ chunk.Sublist (walked_contents ms')
          ∧ b.body = join_space chunk.reverse) := by
  refine ⟨?_, ?_, ?_⟩
  · rw [generate_story, generate_story_loop_no_overflow ms 0 _ [] hdot (by omega),
      List.nil_append]
    have hne : non_bot_contents ms ≠ [] := by
      obtain ⟨m, hm, hb⟩ := hnb
      intro h
      have hmem : m.content ∈ non_bot_contents ms :=
        List.mem_map_of_mem _ (List.mem_filter.mpr ⟨hm, by simp [hb]⟩)
      rw [h] at hmem
      exact absurd hmem (List.not_mem_nil _)
    simp [send_story, hne]
  · intro ms' i b hi hb
    exact generate_story_loop_later_continued ms' 0 "Story so far" [] i b hi hb
  · intro ms' b hb
    simpa using generate_story_loop_chunks ms' 0 "Story so far" [] b hb

/-- Counterexample for C4 as stated: a history slice whose only message is
bot-authored satisfies the claim's hypotheses (no terminator, total weight
0 ≤ 4096) yet the run emits zero blocks, not exactly one — the final flush
of an empty chunk produces nothing. -/
theorem generate_story_no_nonbot_counterexample :
    generate_story [⟨"hi", true⟩] = []
    ∧ (generate_story [⟨"hi", true⟩]).length ≠ 1 := by decide

/-- Witness for `generate_story_blocks_spec` at the spec's three-message
example (newest first, so the chronological story reads `"a bb ccc"`). -/
theorem generate_story_blocks_spec_witness :
    generate_story [⟨"ccc", false⟩, ⟨"bb", false⟩, ⟨"a", false⟩] =
      [⟨"Story so far", "a bb ccc"⟩] := by
  have h := (generate_story_blocks_spec [⟨"ccc", false⟩, ⟨"bb", false⟩, ⟨"a", false⟩]
    (by decide) (by decide) ⟨⟨"ccc", false⟩, by decide, rfl⟩).1
  rw [h]
  decide

/-- C6.  An aggregation run reads at most the 250 most recent pre-trigger
messages — histories agreeing on those 250 produce identical output — and
a terminator at consumed position `k` cuts the run to the first `k`
messages: nothing at or beyond the terminator contributes, and the
terminator emits no block of its own. -/
theorem aggregate_run_bounds :
    (∀ h1 h2 : List HistoryMessage, h1.take 250 = h2.take 250 →
      aggregate_run h1 = aggregate_run h2)
    ∧ (∀ (h : List HistoryMessage) (k : Nat) (m : HistoryMessage),
        (h.take 250)[k]? = some m → m.content = "." →
        aggregate_run h = generate_story ((h.take 250).take k)) := by
  constructor
  · intro h1 h2 he
    rw [aggregate_run, aggregate_run, he]
  · intro h k m hk hm
    rw [aggregate_run, generate_story, generate_story,
      generate_story_loop_takeWhile (h.take 250) 0 "Story so far" [],
      generate_story_loop_takeWhile ((h.take 250).take k) 0 "Story so far" [],
      takeWhile_eq_takeWhile_take _ (h.take 250) k m hk (by simp [hm])]

/-- Witness for `aggregate_run_bounds` at a concrete input: a history whose
very first pre-trigger message is the terminator yields the empty run. -/
theorem aggregate_run_bounds_witness :
    aggregate_run [⟨".", false⟩] = generate_story ([] : List HistoryMessage) :=
  aggregate_run_bounds.2 [⟨".", false⟩] 0 ⟨".", false⟩ (by decide) rfl

/-- C10.  The terminator check runs before the bot-author skip: a message
whose text is `"."` ends the walk whoever wrote it — in particular a
bot-authored `"."` — while bot-authored messages never contribute to any
block's content (every body draws only from the surviving non-bot
texts). -/
theorem terminator_precedes_bot_skip (pre post : List HistoryMessage) (bot : Bool) :
    generate_story (pre ++ ⟨".", bot⟩ :: post) = generate_story pre
    ∧ (∀ (ms : List HistoryMessage), ∀ b ∈ generate_story ms,
        ∃ chunk, chunk ≠ [] ∧ chunk.Sublist (walked_contents ms)
          ∧ b.body = join_space chunk.reverse) := by
  constructor
  · exact generate_story_loop_terminator pre post bot 0 "Story so far" []
  · intro ms b hb
    simpa using generate_story_loop_chunks ms 0 "Story so far" [] b hb

/-- Witness for `terminator_precedes_bot_skip` at concrete inputs: a
bot-authored terminator hides the older history, and a concrete block's
chunk decomposition. -/
theorem terminator_precedes_bot_skip_witness :
    generate_story ([⟨"x", false⟩] ++ ⟨".", true⟩ :: [⟨"y", false⟩]) =
      generate_story [⟨"x", false⟩]
    ∧ ∃ chunk, chunk ≠ [] ∧ chunk.Sublist (walked_contents [⟨"w", false⟩])
        ∧ (Block.mk "Story so far" "w").body = join_space chunk.reverse :=
  ⟨(terminator_precedes_bot_skip [⟨"x", false⟩] [⟨"y", false⟩] true).1,
   (terminator_precedes_bot_skip [] [] true).2 [⟨"w", false⟩]
     (Block.mk "Story so far" "w") (by decide)⟩

end OneWordStory
